import Mathlib

/-!
Verification of the shortcut-codec and registry core of
LinuxSteamShortcutHelper (`src/main.py`).

The embedding models:
* `generate_exeid` (main.py, `generate_exeid`): SHA-256 of the executable's
  bytes, first four digest bytes as a little-endian 32-bit integer, masked
  and negated, validated through a signed 32-bit pack/unpack.
* the binary VDF codec (provided to the program by the external `vdf`
  library; modelled here from the specification's format contract).
* the registry logic of `add_game_to_steam`: sequence-key assignment and
  record insertion.
* the persistence protocol `backup_and_save` over an explicit
  filesystem-state type: backup rotation, session-keyed backup copy, live
  file write with explicit failure outcomes, and icon cleanup on failure.

Machine integers are modelled as `Nat`/`Int` with explicit `% 2^32`
reductions; file bytes are `List Nat`; fallible operations return `Option`.
-/

/-- ASCII bytes of a Lean string literal (used for keys and tokens). -/
def strBytes (s : String) : List Nat :=
  s.toList.map Char.toNat

/-- Little-endian value of a byte list, as in Python's
`int.from_bytes(b, byteorder='little')`. -/
def le32 (l : List Nat) : Nat :=
  l.foldr (fun b acc => b + 256 * acc) 0

/-- The four little-endian bytes of a 32-bit value, as produced by
`struct.pack("<i")` after reduction mod 2^32. -/
def le4 (v : Nat) : List Nat :=
  [v % 256, v / 256 % 256, v / 65536 % 256, v / 16777216 % 256]

/-- `struct.pack("<i", v)`: succeeds exactly when `v` fits a signed 32-bit
integer, producing its four little-endian bytes; raises (here: `none`)
otherwise. -/
def packi32 (v : Int) : Option (List Nat) :=
  if -2147483648 ≤ v ∧ v ≤ 2147483647 then some (le4 (v % 4294967296).toNat) else none

/-- `struct.unpack("<i", b)[0]`: little-endian bytes back to a signed
32-bit integer. -/
def unpacki32 (l : List Nat) : Int :=
  let u := le32 l
  if u < 2147483648 then (u : Int) else (u : Int) - 4294967296

/-- 32-bit right rotation. -/
def rotr (n x : Nat) : Nat :=
  ((x >>> n) ||| (x <<< (32 - n))) % 4294967296

def shaCh (x y z : Nat) : Nat :=
  (x &&& y) ^^^ ((x ^^^ 4294967295) &&& z)

def shaMaj (x y z : Nat) : Nat :=
  (x &&& y) ^^^ (x &&& z) ^^^ (y &&& z)

def shaBigSigma0 (x : Nat) : Nat :=
  rotr 2 x ^^^ rotr 13 x ^^^ rotr 22 x

def shaBigSigma1 (x : Nat) : Nat :=
  rotr 6 x ^^^ rotr 11 x ^^^ rotr 25 x

def shaSmallSigma0 (x : Nat) : Nat :=
  rotr 7 x ^^^ rotr 18 x ^^^ (x >>> 3)

def shaSmallSigma1 (x : Nat) : Nat :=
  rotr 17 x ^^^ rotr 19 x ^^^ (x >>> 10)

/-- Trial-division primality, used only to build the SHA-256 constant
tables. -/
def isPrime (n : Nat) : Bool :=
  decide (2 ≤ n) && (List.range n).all (fun d => decide (d ≤ 1) || decide (n % d ≠ 0))

/-- The first 64 primes (311 is the 64th). -/
def sha64Primes : List Nat :=
  ((List.range 400).filter isPrime).take 64

/-- Binary search for the integer cube root, invariant lo^3 ≤ n < hi^3. -/
def cbrtSearch : Nat → Nat → Nat → Nat → Nat
  | 0, _, lo, _ => lo
  | fuel + 1, n, lo, hi =>
    if hi ≤ lo + 1 then lo
    else
      let mid := (lo + hi) / 2
      if mid * mid * mid ≤ n then cbrtSearch fuel n mid hi
      else cbrtSearch fuel n lo mid

def icbrt (n : Nat) : Nat :=
  cbrtSearch 256 n 0 (n + 1)

/-- SHA-256 round constants (FIPS 180-4): the first 32 bits of the
fractional parts of the cube roots of the first 64 primes, here computed
as `floor(cbrt(p * 2^96)) mod 2^32`. -/
def shaK : List Nat :=
  sha64Primes.map (fun p => icbrt (p <<< 96) % 4294967296)

/-- SHA-256 initial hash words (FIPS 180-4): the first 32 bits of the
fractional parts of the square roots of the first 8 primes, computed as
`floor(sqrt(p * 2^64)) mod 2^32`. -/
def shaH0 : List Nat :=
  (sha64Primes.take 8).map (fun p => Nat.sqrt (p <<< 64) % 4294967296)

/-- Big-endian 8-byte encoding of the message bit length. -/
def be8 (n : Nat) : List Nat :=
  [n / 72057594037927936 % 256, n / 281474976710656 % 256,
   n / 1099511627776 % 256, n / 4294967296 % 256,
   n / 16777216 % 256, n / 65536 % 256, n / 256 % 256, n % 256]

/-- Big-endian 4-byte encoding of one 32-bit word of the digest. -/
def be4 (n : Nat) : List Nat :=
  [n / 16777216 % 256, n / 65536 % 256, n / 256 % 256, n % 256]

/-- SHA-256 padding: append `0x80`, zeros to 56 mod 64, then the 64-bit
big-endian bit length. -/
def sha256Pad (msg : List Nat) : List Nat :=
  msg ++ [128] ++ List.replicate ((119 - msg.length % 64) % 64) 0 ++ be8 (8 * msg.length)

/-- Group a byte list into big-endian 32-bit words. -/
def beWords : List Nat → List Nat
  | b0 :: b1 :: b2 :: b3 :: r => (((b0 * 256 + b1) * 256 + b2) * 256 + b3) :: beWords r
  | _ => []

/-- Split into 64-byte blocks (fuel-indexed for structural recursion). -/
def chunk64 : Nat → List Nat → List (List Nat)
  | 0, _ => []
  | _, [] => []
  | fuel + 1, l => l.take 64 :: chunk64 fuel (l.drop 64)

/-- Extend the 16 block words to the 64-word message schedule; the
accumulator holds the words most-recent first. -/
def shaExtend : Nat → List Nat → List Nat
  | 0, wrev => wrev
  | t + 1, wrev =>
    let w := (shaSmallSigma1 (wrev.getD 1 0) + wrev.getD 6 0 +
              shaSmallSigma0 (wrev.getD 14 0) + wrev.getD 15 0) % 4294967296
    shaExtend t (w :: wrev)

structure SHAState where
  a : Nat
  b : Nat
  c : Nat
  d : Nat
  e : Nat
  f : Nat
  g : Nat
  h : Nat

def shaInit : SHAState :=
  ⟨shaH0.getD 0 0, shaH0.getD 1 0, shaH0.getD 2 0, shaH0.getD 3 0,
   shaH0.getD 4 0, shaH0.getD 5 0, shaH0.getD 6 0, shaH0.getD 7 0⟩

/-- One SHA-256 compression round. -/
def shaRound (s : SHAState) (kw : Nat × Nat) : SHAState :=
  let t1 := (s.h + shaBigSigma1 s.e + shaCh s.e s.f s.g + kw.1 + kw.2) % 4294967296
  let t2 := (shaBigSigma0 s.a + shaMaj s.a s.b s.c) % 4294967296
  ⟨(t1 + t2) % 4294967296, s.a, s.b, s.c, (s.d + t1) % 4294967296, s.e, s.f, s.g⟩

/-- Compress one 64-byte block into the running hash state. -/
def shaBlock (hs : SHAState) (block : List Nat) : SHAState :=
  let w := (shaExtend 48 (beWords block).reverse).reverse
  let s := (shaK.zip w).foldl shaRound hs
  ⟨(hs.a + s.a) % 4294967296, (hs.b + s.b) % 4294967296,
   (hs.c + s.c) % 4294967296, (hs.d + s.d) % 4294967296,
   (hs.e + s.e) % 4294967296, (hs.f + s.f) % 4294967296,
   (hs.g + s.g) % 4294967296, (hs.h + s.h) % 4294967296⟩

/-- `hashlib.sha256(msg).digest()` as a list of 32 bytes. -/
def sha256 (msg : List Nat) : List Nat :=
  let padded := sha256Pad msg
  let hs := (chunk64 padded.length padded).foldl shaBlock shaInit
  be4 hs.a ++ be4 hs.b ++ be4 hs.c ++ be4 hs.d ++
  be4 hs.e ++ be4 hs.f ++ be4 hs.g ++ be4 hs.h

/-- `generate_exeid` (main.py lines 906-938), applied to the bytes the
function read from the executable (the claims presuppose a readable file).
`rand` stands for the stream backing `random.getrandbits(31)`: the model
masks it to 31 bits exactly as `getrandbits` bounds its result.  The
`struct.pack("<i", ...)` validation raises out of the function on a value
that does not fit, hence the `Option` result. -/
def generate_exeid (rand : Nat) (fileBytes : List Nat) : Option Int :=
  let hash_int := le32 ((sha256 fileBytes).take 4)
  let raw_id : Int := -((hash_int &&& 0x7FFFFFFF : Nat) : Int) - 1
  let negative_id : Int :=
    if raw_id = 0 then (((rand &&& 0x7FFFFFFF) ||| 0x80000000 : Nat) : Int) else raw_id
  match packi32 negative_id with
  | some _ => some negative_id
  | none => none

/-- `signed_to_unsigned` (main.py lines 1088-1090); Python's
`x & 0xFFFFFFFF` on an arbitrary-precision integer is reduction
modulo 2^32 on the two's-complement view, i.e. `emod` by 2^32. -/
def signed_to_unsigned (signed_int : Int) : Int :=
  signed_int % 4294967296

theorem le32_le4 (v : Nat) (h : v < 4294967296) : le32 (le4 v) = v := by
  simp only [le32, le4, List.foldr]
  omega


theorem generate_exeid_eq (rand : Nat) (fileBytes : List Nat) :
    generate_exeid rand fileBytes =
      some (-((le32 ((sha256 fileBytes).take 4) &&& 0x7FFFFFFF : Nat) : Int) - 1) := by
  have hle : le32 ((sha256 fileBytes).take 4) &&& 0x7FFFFFFF ≤ 0x7FFFFFFF :=
    Nat.and_le_right
  have hne : ¬(-((le32 ((sha256 fileBytes).take 4) &&& 0x7FFFFFFF : Nat) : Int) - 1 = 0) := by
    omega
  simp only [generate_exeid, packi32, if_neg hne]
  rw [if_pos ⟨by omega, by omega⟩]

theorem packi32_unpack_neg (m : Nat) (hle : m ≤ 0x7FFFFFFF) :
    -(m : Int) - 1 < 0 ∧
      ∃ p, packi32 (-(m : Int) - 1) = some p ∧ unpacki32 p = -(m : Int) - 1 := by
  have h1 : (-2147483648 : Int) ≤ -(m : Int) - 1 := by omega
  have h2 : -(m : Int) - 1 ≤ 2147483647 := by omega
  refine ⟨by omega, le4 ((-(m : Int) - 1) % 4294967296).toNat, ?_, ?_⟩
  · simp [packi32, h1, h2]
  · simp only [unpacki32,
      le32_le4 _ (show ((-(m : Int) - 1) % 4294967296).toNat < 4294967296 by omega)]
    rw [if_neg (by omega)]
    omega

/-- C1: for every executable whose bytes can be read, the derived app id is
`-(h & 0x7FFFFFFF) - 1` for `h` the little-endian unsigned 32-bit value of
the first four bytes of the SHA-256 digest of the file contents, and two
runs over the same bytes give the same app id (the result does not depend
on the random stream). -/
theorem appid_formula_and_deterministic (rand : Nat) (fileBytes : List Nat) :
    generate_exeid rand fileBytes =
      some (-((le32 ((sha256 fileBytes).take 4) &&& 0x7FFFFFFF : Nat) : Int) - 1) ∧
    ∀ rand' : Nat, generate_exeid rand fileBytes = generate_exeid rand' fileBytes := by
  refine ⟨generate_exeid_eq rand fileBytes, fun rand' => ?_⟩
  rw [generate_exeid_eq rand fileBytes, generate_exeid_eq rand' fileBytes]

/-- C5: for every readable input the derived app id is strictly negative
and passes the signed 32-bit pack/unpack round-trip unchanged (the
validation succeeds and does not transform the value); the degenerate
replacement value `getrandbits(31) | (1 << 31)` always has bit 31 (the
32-bit sign bit) set. -/
theorem appid_negative_and_packs (rand : Nat) (fileBytes : List Nat) :
    (∃ v : Int, generate_exeid rand fileBytes = some v ∧ v < 0 ∧
      ∃ p, packi32 v = some p ∧ unpacki32 p = v) ∧
    ∀ r : Nat, Nat.testBit ((r &&& 0x7FFFFFFF) ||| 0x80000000) 31 = true := by
  constructor
  · obtain ⟨hneg, hpack⟩ :=
      packi32_unpack_neg (le32 ((sha256 fileBytes).take 4) &&& 0x7FFFFFFF) Nat.and_le_right
    exact ⟨_, generate_exeid_eq rand fileBytes, hneg, hpack⟩
  · intro r
    have h31 : Nat.testBit 0x80000000 31 = true := by decide
    simp [Nat.testBit_or, h31]

/-- Modelled from the spec: the binary VDF tree handled by the external
`vdf` library (`vdf.binary_load` / `vdf.binary_dump` in main.py): a closed
tagged-variant type of nested ordered maps, string values and 32-bit
integer values (32-bit values carried as their unsigned 4-byte image). -/
inductive VDFNode where
  | str : List Nat → VDFNode
  | int32 : Nat → VDFNode
  | map : List (List Nat × VDFNode) → VDFNode

/-- A shortcuts file: the ordered entries under the top-level
`"shortcuts"` map. -/
abbrev VDFFile := List (List Nat × VDFNode)

mutual
/-- Modelled from the spec: binary VDF encoding.  A map is marker `0x00`,
key, `0x00`, children, terminator `0x08`; a string is marker `0x01`, key,
`0x00`, value, `0x00`; a 32-bit integer is marker `0x02`, key, `0x00`,
four little-endian bytes. -/
def encodeEntry (k : List Nat) : VDFNode → List Nat
  | .str v => 1 :: (k ++ [0] ++ v ++ [0])
  | .int32 v => 2 :: (k ++ [0] ++ le4 v)
  | .map es => 0 :: (k ++ [0] ++ encodeEntries es ++ [8])

def encodeEntries : VDFFile → List Nat
  | [] => []
  | (k, n) :: es => encodeEntry k n ++ encodeEntries es
end

/-- Read bytes up to (and consuming) a `0x00` terminator; fails when the
buffer ends before a terminator is found. -/
def takeString : List Nat → Option (List Nat × List Nat)
  | [] => none
  | 0 :: r => some ([], r)
  | b :: r =>
    match takeString r with
    | some (s, rest) => some (b :: s, rest)
    | none => none

mutual
/-- Modelled from the spec: binary VDF decoding, fuel-indexed (the fuel is
instantiated with the buffer length, an upper bound on the recursion
depth).  Fails on an unrecognized marker, an unterminated string, or a map
not closed by its terminator before end-of-buffer. -/
def decodeEntry : Nat → List Nat → Option ((List Nat × VDFNode) × List Nat)
  | 0, _ => none
  | fuel + 1, l =>
    match l with
    | 0 :: r =>
      match takeString r with
      | some (k, r1) =>
        match decodeMapBody fuel r1 with
        | some (es, r2) => some ((k, VDFNode.map es), r2)
        | none => none
      | none => none
    | 1 :: r =>
      match takeString r with
      | some (k, r1) =>
        match takeString r1 with
        | some (v, r2) => some ((k, VDFNode.str v), r2)
        | none => none
      | none => none
    | 2 :: r =>
      match takeString r with
      | some (k, r1) =>
        match r1 with
        | b0 :: b1 :: b2 :: b3 :: r2 =>
          some ((k, VDFNode.int32 (b0 + 256 * b1 + 65536 * b2 + 16777216 * b3)), r2)
        | _ => none
      | none => none
    | _ => none

def decodeMapBody : Nat → List Nat → Option (VDFFile × List Nat)
  | 0, _ => none
  | fuel + 1, l =>
    match l with
    | 8 :: r => some ([], r)
    | _ =>
      match decodeEntry fuel l with
      | some (e, r1) =>
        match decodeMapBody fuel r1 with
        | some (es, r2) => some (e :: es, r2)
        | none => none
      | none => none
end

def shortcutsKey : List Nat := strBytes "shortcuts"

/-- Encode a whole shortcuts file: a single outermost map keyed
`"shortcuts"`. -/
def encodeFile (f : VDFFile) : List Nat :=
  encodeEntry shortcutsKey (VDFNode.map f)

/-- Decode a whole shortcuts file: one outermost map keyed `"shortcuts"`
consuming the entire buffer. -/
def decodeFile (l : List Nat) : Option VDFFile :=
  match decodeEntry l.length l with
  | some ((k, VDFNode.map es), rest) =>
    if k = shortcutsKey ∧ rest = [] then some es else none
  | _ => none

/-- Well-formed raw string bytes: nonzero (the format's strings are
`0x00`-terminated) and byte-valued. -/
def wfBytes (l : List Nat) : Bool :=
  l.all (fun b => decide (0 < b ∧ b < 256))

mutual
/-- Well-formedness of a tree: keys and string values hold real nonzero
bytes, integer values fit 32 bits. -/
def wfNode : VDFNode → Bool
  | .str v => wfBytes v
  | .int32 v => decide (v < 4294967296)
  | .map es => wfEntries es

def wfEntries : VDFFile → Bool
  | [] => true
  | (k, n) :: es => wfBytes k && wfNode n && wfEntries es
end

theorem takeString_append {k rest : List Nat} (hk : wfBytes k = true) :
    takeString (k ++ 0 :: rest) = some (k, rest) := by
  induction k with
  | nil => rfl
  | cons b bs ih =>
    simp only [wfBytes, List.all_cons, Bool.and_eq_true, decide_eq_true_eq] at hk
    obtain ⟨⟨hb0, _⟩, hbs⟩ := hk
    cases b with
    | zero => omega
    | succ b' =>
      simp only [List.cons_append, takeString, List.append_eq]
      rw [ih (by simpa [wfBytes] using hbs)]

theorem encodeEntry_length_pos (k : List Nat) (n : VDFNode) :
    1 ≤ (encodeEntry k n).length := by
  cases n <;> simp [encodeEntry]

theorem decode_encode_fuel (fuel : Nat) :
    (∀ (k : List Nat) (n : VDFNode) (rest : List Nat),
      wfBytes k = true → wfNode n = true →
      (encodeEntry k n).length ≤ fuel →
      decodeEntry fuel (encodeEntry k n ++ rest) = some ((k, n), rest)) ∧
    (∀ (es : VDFFile) (rest : List Nat),
      wfEntries es = true →
      (encodeEntries es).length + 1 ≤ fuel →
      decodeMapBody fuel (encodeEntries es ++ 8 :: rest) = some (es, rest)) := by
  induction fuel using Nat.strong_induction_on with
  | _ fuel ih =>
    constructor
    · intro k n rest hk hn hlen
      cases fuel with
      | zero => exact absurd hlen (by have := encodeEntry_length_pos k n; omega)
      | succ f =>
        cases n with
        | str v =>
          simp only [wfNode] at hn
          simp only [encodeEntry, List.cons_append, List.append_assoc,
            List.singleton_append, List.nil_append, decodeEntry,
            takeString_append hk, takeString_append hn]
        | int32 v =>
          simp only [wfNode, decide_eq_true_eq] at hn
          have hv : v % 256 + 256 * (v / 256 % 256) + 65536 * (v / 65536 % 256) +
              16777216 * (v / 16777216 % 256) = v := by omega
          simp only [encodeEntry, le4, List.cons_append, List.append_assoc,
            List.singleton_append, List.nil_append, decodeEntry,
            takeString_append hk]
          rw [hv]
        | map es =>
          simp only [wfNode] at hn
          have hlen' : (encodeEntries es).length + 1 ≤ f := by
            simp only [encodeEntry, List.length_cons, List.length_append,
              List.length_singleton] at hlen
            omega
          simp only [encodeEntry, List.cons_append, List.append_assoc,
            List.singleton_append, List.nil_append, decodeEntry,
            takeString_append hk, (ih f (Nat.lt_succ_self f)).2 es rest hn hlen']
    · intro es rest hes hlen
      cases fuel with
      | zero => omega
      | succ f =>
        cases es with
        | nil =>
          simp only [encodeEntries, List.nil_append, decodeMapBody]
        | cons e es' =>
          obtain ⟨k, n⟩ := e
          simp only [wfEntries, Bool.and_eq_true] at hes
          obtain ⟨⟨hk, hn⟩, hes'⟩ := hes
          have hlen1 : (encodeEntry k n).length ≤ f := by
            simp only [encodeEntries, List.length_append] at hlen
            omega
          have hlen2 : (encodeEntries es').length + 1 ≤ f := by
            have := encodeEntry_length_pos k n
            simp only [encodeEntries, List.length_append] at hlen
            omega
          have hdec1 := (ih f (Nat.lt_succ_self f)).1 k n
            (encodeEntries es' ++ 8 :: rest) hk hn hlen1
          have hdec2 := (ih f (Nat.lt_succ_self f)).2 es' rest hes' hlen2
          cases n with
          | str v =>
            simp only [encodeEntries, encodeEntry, List.cons_append,
              List.append_assoc, List.singleton_append, List.nil_append,
              decodeMapBody] at hdec1 ⊢
            simp only [hdec1, hdec2]
          | int32 v =>
            simp only [encodeEntries, encodeEntry, le4, List.cons_append,
              List.append_assoc, List.singleton_append, List.nil_append,
              decodeMapBody] at hdec1 ⊢
            simp only [hdec1, hdec2]
          | map es2 =>
            simp only [encodeEntries, encodeEntry, List.cons_append,
              List.append_assoc, List.singleton_append, List.nil_append,
              decodeMapBody] at hdec1 ⊢
            simp only [hdec1, hdec2]

theorem decodeFile_encodeFile (f : VDFFile) (hf : wfEntries f = true) :
    decodeFile (encodeFile f) = some f := by
  have hk : wfBytes shortcutsKey = true := by decide
  have h := (decode_encode_fuel (encodeFile f).length).1 shortcutsKey (VDFNode.map f) []
    hk (by simpa [wfNode] using hf) (le_of_eq rfl)
  rw [List.append_nil] at h
  have h' : decodeEntry (encodeFile f).length (encodeFile f) =
      some ((shortcutsKey, VDFNode.map f), []) := h
  simp [decodeFile, h']

/-- C2: for any well-formed `ShortcutFile` tree, decoding the encoding
gives back the original tree, and encoding an unmodified tree is
deterministic (a pure function of the tree, hence byte-identical across
calls). -/
theorem vdf_roundtrip_and_deterministic (f : VDFFile) (hf : wfEntries f = true) :
    decodeFile (encodeFile f) = some f ∧ encodeFile f = encodeFile f :=
  ⟨decodeFile_encodeFile f hf, rfl⟩

/-- A concrete one-record shortcuts file exercising all three node kinds
and the thirteen record fields written by `add_game_to_steam`. -/
def sampleShortcutFile : VDFFile :=
  [(strBytes "0", VDFNode.map
    [(strBytes "appid", VDFNode.int32 3236529989),
     (strBytes "AppName", VDFNode.str (strBytes "Game")),
     (strBytes "Exe", VDFNode.str (strBytes "\"/home/u/Games/Launch Scripts/g.sh\"")),
     (strBytes "StartDir", VDFNode.str (strBytes "/home/u/Games/Launch Scripts")),
     (strBytes "icon", VDFNode.str []),
     (strBytes "ShortcutPath", VDFNode.str []),
     (strBytes "LaunchOptions", VDFNode.str []),
     (strBytes "IsHidden", VDFNode.str (strBytes "0")),
     (strBytes "AllowDesktopConfig", VDFNode.str (strBytes "1")),
     (strBytes "AllowOverlay", VDFNode.str (strBytes "1")),
     (strBytes "InGame", VDFNode.str (strBytes "0")),
     (strBytes "LastPlayTime", VDFNode.str (strBytes "0")),
     (strBytes "FlatpakAppID", VDFNode.str [])])]

theorem vdf_roundtrip_witness :
    wfEntries sampleShortcutFile = true ∧
    decodeFile (encodeFile sampleShortcutFile) = some sampleShortcutFile :=
  ⟨by decide,
   (vdf_roundtrip_and_deterministic sampleShortcutFile (by decide)).1⟩

/-- Digit run with Python's underscore rule: an underscore must sit
between two digits. `acc` is the value read so far. -/
def parseDigits : List Nat → Nat → Option Nat
  | [], acc => some acc
  | b :: r, acc =>
    if 48 ≤ b ∧ b ≤ 57 then parseDigits r (acc * 10 + (b - 48))
    else if b = 95 then
      match r with
      | c :: r' =>
        if 48 ≤ c ∧ c ≤ 57 then parseDigits r' (acc * 10 + (c - 48)) else none
      | [] => none
    else none

def isPySpace (b : Nat) : Bool :=
  b = 32 || b = 9 || b = 10 || b = 13 || b = 11 || b = 12

/-- Strip leading and trailing ASCII whitespace. -/
def stripBytes (l : List Nat) : List Nat :=
  ((l.dropWhile isPySpace).reverse.dropWhile isPySpace).reverse

def pyIntDigits : List Nat → Option Nat
  | b :: r => if 48 ≤ b ∧ b ≤ 57 then parseDigits r (b - 48) else none
  | [] => none

/-- Python `int(s)` on the ASCII bytes of a string: optional surrounding
whitespace, an optional sign, then a nonempty digit run (single
underscores allowed between digits); `none` when the string does not
parse (`ValueError`). -/
def pyInt (l : List Nat) : Option Int :=
  match stripBytes l with
  | 43 :: r => (pyIntDigits r).map (fun n => (n : Int))
  | 45 :: r => (pyIntDigits r).map (fun n => -(n : Int))
  | r => (pyIntDigits r).map (fun n => (n : Int))

/-- The `highest_id` scan of `add_game_to_steam` (main.py lines 742-749):
start at -1; when the shortcuts map is nonempty, fold over its keys,
parsing each with `int(...)` and keeping the maximum, skipping keys that
fail to parse. -/
def highest_id (es : VDFFile) : Int :=
  if es.isEmpty then -1
  else es.foldl (fun acc e =>
    match pyInt e.1 with
    | some i => max acc i
    | none => acc) (-1)

/-- ASCII decimal digits of a natural number (`str` of a non-negative
Python int); fuel-indexed, instantiated with the number itself. -/
def natBytesGo : Nat → Nat → List Nat
  | 0, n => [48 + n % 10]
  | fuel + 1, n => if n < 10 then [48 + n] else natBytesGo fuel (n / 10) ++ [48 + n % 10]

def natBytes (n : Nat) : List Nat :=
  natBytesGo n n

/-- `new_shortcut_id = str(highest_id + 1)` (main.py line 768); the fold
starts at -1, so the successor is a non-negative integer. -/
def new_shortcut_id (es : VDFFile) : List Nat :=
  natBytes (highest_id es + 1).toNat

/-- The specification's description of the assigned key: the maximum over
all keys that parse as integers, taking -1 when no key parses or the map
is empty, plus one, stringified. -/
def specNextKey (es : VDFFile) : List Nat :=
  natBytes ((es.filterMap (fun e => pyInt e.1)).foldr max (-1) + 1).toNat

theorem foldr_max_shift (xs : List Int) (a x : Int) :
    xs.foldr max (max a x) = max x (xs.foldr max a) := by
  induction xs with
  | nil => exact max_comm a x
  | cons y ys ih =>
    simp only [List.foldr_cons, ih]
    exact max_left_comm y x (ys.foldr max a)

theorem foldl_max_eq_foldr (xs : List Int) (a : Int) :
    xs.foldl max a = xs.foldr max a := by
  induction xs generalizing a with
  | nil => rfl
  | cons x ys ih =>
    simp only [List.foldl_cons, List.foldr_cons, ih (max a x), foldr_max_shift]

theorem highest_fold_eq_filterMap (es : VDFFile) (a : Int) :
    es.foldl (fun acc e =>
      match pyInt e.1 with
      | some i => max acc i
      | none => acc) a = (es.filterMap (fun e => pyInt e.1)).foldl max a := by
  induction es generalizing a with
  | nil => rfl
  | cons e es ih =>
    cases h : pyInt e.1 with
    | some i => simp [List.filterMap_cons, h, ih]
    | none => simp [List.filterMap_cons, h, ih]

theorem highest_id_eq_spec (es : VDFFile) :
    highest_id es = (es.filterMap (fun e => pyInt e.1)).foldr max (-1) := by
  rw [highest_id]
  by_cases he : es.isEmpty
  · rw [if_pos he]
    cases es with
    | nil => rfl
    | cons e es => simp at he
  · rw [if_neg he, highest_fold_eq_filterMap, foldl_max_eq_foldr]

/-- C4: the key assigned to the new record is the string form of
(maximum over all keys that parse as integers, -1 when none parses or the
map is empty) + 1; in particular keys {"0","2","5"} yield "6", the empty
map yields "0", and {"x","1"} yields "2". -/
theorem next_key_assignment :
    (∀ es : VDFFile, new_shortcut_id es = specNextKey es) ∧
    new_shortcut_id [(strBytes "0", VDFNode.str []), (strBytes "2", VDFNode.str []),
      (strBytes "5", VDFNode.str [])] = strBytes "6" ∧
    new_shortcut_id [] = strBytes "0" ∧
    new_shortcut_id [(strBytes "x", VDFNode.str []), (strBytes "1", VDFNode.str [])] =
      strBytes "2" := by
  refine ⟨fun es => ?_, by decide, by decide, by decide⟩
  rw [new_shortcut_id, specNextKey, highest_id_eq_spec]

/-- One backup file `shortcuts_<token>.vdf` in the backup directory: its
session token, modification time, and byte contents (`shutil.copy2`
preserves the source's modification time). -/
structure Backup where
  token : String
  mtime : Nat
  content : List Nat
deriving DecidableEq

/-- The filesystem slice read and written by `backup_and_save`: the live
`shortcuts.vdf` (contents and modification time, `none` when absent), the
backup directory, and the downloaded icon files. -/
structure FS where
  live : Option (List Nat)
  liveMtime : Nat
  backups : List Backup
  iconFiles : List String
deriving DecidableEq

/-- Outcome of the write step `open(shortcuts_path, "wb")` followed by
`vdf.binary_dump` (main.py lines 832-833): the open itself can raise
(`failOpen`, file untouched), or the dump can raise after the open has
already truncated the file (`failWrite`; per the specification the write
is a single full-buffer operation, so nothing of the new content is on
disk and the file is left empty). -/
inductive WriteOutcome where
  | ok
  | failOpen
  | failWrite
deriving DecidableEq

/-- Insert into a list sorted by modification time descending. -/
def insertByMtime (b : Backup) : List Backup → List Backup
  | [] => [b]
  | c :: cs => if c.mtime < b.mtime then b :: c :: cs else c :: insertByMtime b cs

/-- `sorted(backup_files, key=os.path.getmtime, reverse=True)`. -/
def sortByMtimeDesc (l : List Backup) : List Backup :=
  l.foldr insertByMtime []

/-- The rotation loop (main.py lines 818-820): while at least
`max_backups = 5` files remain, delete the oldest (the last of the
descending list); fuel-indexed, instantiated with the list length. -/
def pruneGo : Nat → List Backup → List Backup
  | 0, l => l
  | fuel + 1, l => if 5 ≤ l.length then pruneGo fuel l.dropLast else l

/-- Lines 817-820: sort the backup directory by modification time
descending and run the rotation loop. -/
def pruneBackups (l : List Backup) : List Backup :=
  pruneGo l.length (sortByMtimeDesc l)

/-- Lines 822-830: skip the copy when a backup keyed by the current
session already exists, otherwise copy the live file (mtime preserved) to
the backup path; a missing live file only prints a notice. -/
def backupStep (sessionId : String) (fs : FS) : List Backup :=
  let pruned := pruneBackups fs.backups
  if pruned.any (fun b => b.token == sessionId) then pruned
  else
    match fs.live with
    | some content => ⟨sessionId, fs.liveMtime, content⟩ :: pruned
    | none => pruned

/-- The error-path icon cleanup (main.py lines 841-851): when `icon_path`
is nonempty and the file exists, delete it. -/
def removeIcon (iconPath : String) (fs : FS) : FS :=
  if iconPath ≠ "" then
    if fs.iconFiles.contains iconPath then
      { fs with iconFiles := fs.iconFiles.erase iconPath }
    else fs
  else fs

/-- `backup_and_save` (main.py lines 804-852): prune the backup
directory, make the session-keyed backup copy, then encode and write the
updated tree to the live path, returning `True`; on a write failure,
report the error, delete the downloaded icon if any, and return
`False`. -/
def backup_and_save (sessionId : String) (shortcuts : VDFFile) (iconPath : String)
    (outcome : WriteOutcome) (now : Nat) (fs : FS) : Bool × FS :=
  let afterBackup := backupStep sessionId fs
  match outcome with
  | .ok =>
    (true, { live := some (encodeFile shortcuts), liveMtime := now,
             backups := afterBackup, iconFiles := fs.iconFiles })
  | .failOpen =>
    (false, removeIcon iconPath
      { live := fs.live, liveMtime := fs.liveMtime,
        backups := afterBackup, iconFiles := fs.iconFiles })
  | .failWrite =>
    (false, removeIcon iconPath
      { live := some [], liveMtime := now,
        backups := afterBackup, iconFiles := fs.iconFiles })

/-- The registry slice of `add_game_to_steam` (main.py lines 726-796):
load and decode the shortcuts file (a missing file is replaced by the
fresh tree `{"shortcuts": {}}`; a decode failure aborts the whole
operation), assign the next sequence key, append the new record, and
persist through `backup_and_save`.  The first result component is `none`
when the operation aborted before reaching persistence. -/
def add_game (sessionId : String) (record : VDFNode) (iconPath : String)
    (outcome : WriteOutcome) (now : Nat) (fs : FS) : Option Bool × FS :=
  match fs.live with
  | none =>
    let r := backup_and_save sessionId [(new_shortcut_id [], record)]
      iconPath outcome now fs
    (some r.1, r.2)
  | some bytes =>
    match decodeFile bytes with
    | none => (none, fs)
    | some shortcuts =>
      let r := backup_and_save sessionId
        (shortcuts ++ [(new_shortcut_id shortcuts, record)]) iconPath outcome now fs
      (some r.1, r.2)

theorem insertByMtime_perm (b : Backup) (l : List Backup) :
    (insertByMtime b l).Perm (b :: l) := by
  induction l with
  | nil => exact List.Perm.refl _
  | cons c cs ih =>
    simp only [insertByMtime]
    split_ifs
    · exact List.Perm.refl _
    · exact (List.Perm.cons c ih).trans (List.Perm.swap b c cs)

theorem sortByMtimeDesc_perm (l : List Backup) :
    (sortByMtimeDesc l).Perm l := by
  induction l with
  | nil => exact List.Perm.refl _
  | cons b bs ih =>
    exact (insertByMtime_perm b (sortByMtimeDesc bs)).trans (List.Perm.cons b ih)

theorem sortByMtimeDesc_length (l : List Backup) :
    (sortByMtimeDesc l).length = l.length :=
  (sortByMtimeDesc_perm l).length_eq

theorem pruneGo_subset (fuel : Nat) (l : List Backup) : pruneGo fuel l ⊆ l := by
  induction fuel generalizing l with
  | zero => exact fun _ h => h
  | succ f ih =>
    simp only [pruneGo]
    split_ifs
    · exact fun _ hx => (List.dropLast_sublist l).subset (ih l.dropLast hx)
    · exact fun _ h => h

theorem pruneGo_length (fuel : Nat) (l : List Backup) (h : l.length ≤ 4 + fuel) :
    (pruneGo fuel l).length ≤ 4 := by
  induction fuel generalizing l with
  | zero => simpa using h
  | succ f ih =>
    simp only [pruneGo]
    split_ifs with h5
    · exact ih l.dropLast (by simp [List.length_dropLast]; omega)
    · omega

theorem pruneGo_of_short (fuel : Nat) (l : List Backup) (h : l.length ≤ 4) :
    pruneGo fuel l = l := by
  cases fuel with
  | zero => rfl
  | succ f => simp only [pruneGo]; rw [if_neg (by omega)]

theorem pruneBackups_length (l : List Backup) : (pruneBackups l).length ≤ 4 :=
  pruneGo_length l.length (sortByMtimeDesc l) (by rw [sortByMtimeDesc_length]; omega)

theorem pruneBackups_subset (l : List Backup) : pruneBackups l ⊆ l :=
  fun x hx => (sortByMtimeDesc_perm l).subset (pruneGo_subset _ _ hx)

theorem pruneBackups_of_short (l : List Backup) (h : l.length ≤ 4) :
    pruneBackups l = sortByMtimeDesc l :=
  pruneGo_of_short _ _ (by rw [sortByMtimeDesc_length]; omega)

theorem backupStep_length (sessionId : String) (fs : FS) :
    (backupStep sessionId fs).length ≤ 5 := by
  have hp := pruneBackups_length fs.backups
  simp only [backupStep]
  split_ifs
  · omega
  · cases fs.live <;> simp <;> omega

theorem removeIcon_backups (iconPath : String) (fs : FS) :
    (removeIcon iconPath fs).backups = fs.backups := by
  simp only [removeIcon]
  split_ifs <;> rfl

theorem removeIcon_live (iconPath : String) (fs : FS) :
    (removeIcon iconPath fs).live = fs.live := by
  simp only [removeIcon]
  split_ifs <;> rfl

theorem backup_and_save_backups (sessionId : String) (shortcuts : VDFFile)
    (iconPath : String) (outcome : WriteOutcome) (now : Nat) (fs : FS) :
    ((backup_and_save sessionId shortcuts iconPath outcome now fs).2).backups =
      backupStep sessionId fs := by
  cases outcome <;> simp [backup_and_save, removeIcon_backups]

/-- A sequence of persistence calls: each entry supplies the session
token and the write time of one call that saves an (empty) updated tree
and succeeds. -/
def persistSeq (calls : List (String × Nat)) (fs : FS) : FS :=
  calls.foldl (fun s c => (backup_and_save c.1 [] "" WriteOutcome.ok c.2 s).2) fs

/-- Seven successive sessions, one persistence call each. -/
def sevenCalls : List (String × Nat) :=
  [("t1", 1), ("t2", 2), ("t3", 3), ("t4", 4), ("t5", 5), ("t6", 6), ("t7", 7)]

/-- C6: after every persistence call at most 5 backup files exist, and
seven sequential calls from distinct sessions (starting from an existing
live file and an empty backup directory) leave exactly the 5 most
recently created backups, oldest pruned first. -/
theorem backup_rotation_cap :
    (∀ (sessionId : String) (shortcuts : VDFFile) (iconPath : String)
      (outcome : WriteOutcome) (now : Nat) (fs : FS),
      ((backup_and_save sessionId shortcuts iconPath outcome now fs).2).backups.length ≤ 5) ∧
    (persistSeq sevenCalls
      { live := some [1], liveMtime := 0, backups := [], iconFiles := [] }).backups.map
        Backup.token = ["t7", "t6", "t5", "t4", "t3"] ∧
    (persistSeq sevenCalls
      { live := some [1], liveMtime := 0, backups := [], iconFiles := [] }).backups.length
      = 5 := by
  refine ⟨fun sessionId shortcuts iconPath outcome now fs => ?_, by decide, by decide⟩
  rw [backup_and_save_backups]
  exact backupStep_length sessionId fs

theorem perm_any (l l' : List Backup) (h : l.Perm l') (p : Backup → Bool) :
    l.any p = l'.any p := by
  rw [Bool.eq_iff_iff]
  simp only [List.any_eq_true]
  exact ⟨fun ⟨x, hx, hp⟩ => ⟨x, h.subset hx, hp⟩,
    fun ⟨x, hx, hp⟩ => ⟨x, h.symm.subset hx, hp⟩⟩

theorem backupStep_length_of_short (sessionId : String) (fs : FS)
    (h : fs.backups.length ≤ 3) : (backupStep sessionId fs).length ≤ 4 := by
  have hp : (pruneBackups fs.backups).length ≤ 3 := by
    rw [pruneBackups_of_short _ (by omega), sortByMtimeDesc_length]
    exact h
  simp only [backupStep]
  split_ifs
  · omega
  · cases fs.live <;> simp <;> omega

theorem backupStep_any_self (sessionId : String) (fs : FS) (c : List Nat)
    (hl : fs.live = some c) :
    (backupStep sessionId fs).any (fun b => b.token == sessionId) = true := by
  simp only [backupStep]
  split_ifs with ha
  · exact ha
  · rw [hl]
    simp

theorem backupStep_perm_of_present (sessionId : String) (g : FS)
    (hlen : g.backups.length ≤ 4)
    (hany : g.backups.any (fun b => b.token == sessionId) = true) :
    (backupStep sessionId g).Perm g.backups := by
  have hsort : pruneBackups g.backups = sortByMtimeDesc g.backups :=
    pruneBackups_of_short _ hlen
  have hperm : (pruneBackups g.backups).Perm g.backups := by
    rw [hsort]; exact sortByMtimeDesc_perm g.backups
  have hany' : (pruneBackups g.backups).any (fun b => b.token == sessionId) = true := by
    rw [perm_any _ _ hperm]; exact hany
  simp only [backupStep, hany', if_pos]
  exact hperm

/-- C7 (amended): when the live shortcuts file exists and at most 3
backups are present before the first call, a second successful
persistence call under the same session token leaves the backup
directory's files unchanged (in particular creates no new backup, so the
first backup's content is preserved) while still overwriting the live
file with the updated tree. -/
theorem same_session_second_save (sessionId : String) (f1 f2 : VDFFile)
    (i1 i2 : String) (now1 now2 : Nat) (fs : FS) (c : List Nat)
    (hl : fs.live = some c) (hlen : fs.backups.length ≤ 3) :
    ((backup_and_save sessionId f2 i2 WriteOutcome.ok now2
        (backup_and_save sessionId f1 i1 WriteOutcome.ok now1 fs).2).2).backups.Perm
      ((backup_and_save sessionId f1 i1 WriteOutcome.ok now1 fs).2).backups ∧
    ((backup_and_save sessionId f2 i2 WriteOutcome.ok now2
        (backup_and_save sessionId f1 i1 WriteOutcome.ok now1 fs).2).2).live =
      some (encodeFile f2) := by
  have h1 : (backup_and_save sessionId f1 i1 WriteOutcome.ok now1 fs).2 =
      { live := some (encodeFile f1), liveMtime := now1,
        backups := backupStep sessionId fs, iconFiles := fs.iconFiles } := rfl
  rw [h1]
  refine ⟨?_, rfl⟩
  show (backupStep sessionId
      { live := some (encodeFile f1), liveMtime := now1,
        backups := backupStep sessionId fs, iconFiles := fs.iconFiles }).Perm
    (backupStep sessionId fs)
  exact backupStep_perm_of_present sessionId _
    (backupStep_length_of_short sessionId fs hlen)
    (backupStep_any_self sessionId fs c hl)

theorem same_session_second_save_witness :
    ((backup_and_save "s" [] "" WriteOutcome.ok 2
        (backup_and_save "s" [] "" WriteOutcome.ok 1
          { live := some [1], liveMtime := 0, backups := [],
            iconFiles := [] }).2).2).backups.Perm
      ((backup_and_save "s" [] "" WriteOutcome.ok 1
        { live := some [1], liveMtime := 0, backups := [],
          iconFiles := [] }).2).backups ∧
    ((backup_and_save "s" [] "" WriteOutcome.ok 2
        (backup_and_save "s" [] "" WriteOutcome.ok 1
          { live := some [1], liveMtime := 0, backups := [],
            iconFiles := [] }).2).2).live = some (encodeFile []) :=
  same_session_second_save "s" [] [] "" "" 1 2
    { live := some [1], liveMtime := 0, backups := [], iconFiles := [] } [1]
    rfl (by decide)

/-- C7 counterexample: when the live file does not exist at the first
call, no backup is made then, and the second call under the very same
session token does create a backup — so the second call is not a backup
no-op for every pair of same-token calls. -/
theorem same_session_counterexample :
    ((backup_and_save "s" [] "" WriteOutcome.ok 1
        { live := none, liveMtime := 0, backups := [],
          iconFiles := [] }).2).backups.length = 0 ∧
    ((backup_and_save "s" [] "" WriteOutcome.ok 2
        (backup_and_save "s" [] "" WriteOutcome.ok 1
          { live := none, liveMtime := 0, backups := [],
            iconFiles := [] }).2).2).backups.length = 1 := by
  decide

theorem backupStep_fresh (sessionId : String) (fs : FS) (c : List Nat)
    (hl : fs.live = some c)
    (hfresh : ∀ b ∈ fs.backups, b.token ≠ sessionId) :
    backupStep sessionId fs = ⟨sessionId, fs.liveMtime, c⟩ :: pruneBackups fs.backups := by
  have hany : (pruneBackups fs.backups).any (fun b => b.token == sessionId) = false := by
    rw [List.any_eq_false]
    intro b hb
    simpa using hfresh b (pruneBackups_subset fs.backups hb)
  simp [backupStep, hany, hl]

/-- C3 (amended): on a write failure after a successful backup copy, the
freshly made backup stays in the backup directory; when the failure is
raised by `open` itself the live file is untouched, but when the encoding
step fails after the open, the live file has already been truncated and
is left empty (not its original content). -/
theorem write_failure_backup_intact (sessionId : String) (shortcuts : VDFFile)
    (iconPath : String) (outcome : WriteOutcome) (now : Nat) (fs : FS) (c : List Nat)
    (hl : fs.live = some c)
    (hfresh : ∀ b ∈ fs.backups, b.token ≠ sessionId)
    (hfail : outcome ≠ WriteOutcome.ok) :
    (backup_and_save sessionId shortcuts iconPath outcome now fs).1 = false ∧
    (⟨sessionId, fs.liveMtime, c⟩ : Backup) ∈
      ((backup_and_save sessionId shortcuts iconPath outcome now fs).2).backups ∧
    (outcome = WriteOutcome.failOpen →
      ((backup_and_save sessionId shortcuts iconPath outcome now fs).2).live = fs.live) ∧
    (outcome = WriteOutcome.failWrite →
      ((backup_and_save sessionId shortcuts iconPath outcome now fs).2).live = some []) := by
  have hmem : (⟨sessionId, fs.liveMtime, c⟩ : Backup) ∈
      ((backup_and_save sessionId shortcuts iconPath outcome now fs).2).backups := by
    rw [backup_and_save_backups, backupStep_fresh sessionId fs c hl hfresh]
    exact List.mem_cons_self _ _
  cases outcome with
  | ok => exact absurd rfl hfail
  | failOpen =>
    refine ⟨rfl, hmem, ?_, ?_⟩
    · intro _
      show (removeIcon iconPath _).live = fs.live
      rw [removeIcon_live]
    · intro h
      exact absurd h (by decide)
  | failWrite =>
    refine ⟨rfl, hmem, ?_, ?_⟩
    · intro h
      exact absurd h (by decide)
    · intro _
      show (removeIcon iconPath _).live = some []
      rw [removeIcon_live]

theorem write_failure_backup_intact_witness :
    (backup_and_save "s" [] "" WriteOutcome.failWrite 1
      { live := some [5], liveMtime := 0, backups := [], iconFiles := [] }).1 = false ∧
    (⟨"s", 0, [5]⟩ : Backup) ∈
      ((backup_and_save "s" [] "" WriteOutcome.failWrite 1
        { live := some [5], liveMtime := 0, backups := [], iconFiles := [] }).2).backups ∧
    (WriteOutcome.failWrite = WriteOutcome.failOpen →
      ((backup_and_save "s" [] "" WriteOutcome.failWrite 1
        { live := some [5], liveMtime := 0, backups := [], iconFiles := [] }).2).live =
        ({ live := some [5], liveMtime := 0, backups := [], iconFiles := [] } : FS).live) ∧
    (WriteOutcome.failWrite = WriteOutcome.failWrite →
      ((backup_and_save "s" [] "" WriteOutcome.failWrite 1
        { live := some [5], liveMtime := 0, backups := [], iconFiles := [] }).2).live =
        some []) :=
  write_failure_backup_intact "s" [] "" WriteOutcome.failWrite 1
    { live := some [5], liveMtime := 0, backups := [], iconFiles := [] } [5]
    rfl (by simp) (by decide)

/-- C3 counterexample: a failure in the encode/dump step after a
successful backup leaves the backup intact but truncates the live
shortcuts file to empty — the original on-disk file is modified, contrary
to the claim that it is left unmodified. -/
theorem write_failure_truncates_counterexample :
    ((backup_and_save "s" [] "" WriteOutcome.failWrite 1
        { live := some [1, 2, 3], liveMtime := 0, backups := [],
          iconFiles := [] }).2).backups = [⟨"s", 0, [1, 2, 3]⟩] ∧
    ((backup_and_save "s" [] "" WriteOutcome.failWrite 1
        { live := some [1, 2, 3], liveMtime := 0, backups := [],
          iconFiles := [] }).2).live = some [] ∧
    some ([] : List Nat) ≠ some [1, 2, 3] := by
  decide

theorem backupStep_subset_of_none (sessionId : String) (fs : FS)
    (hl : fs.live = none) : backupStep sessionId fs ⊆ fs.backups := by
  simp only [backupStep, hl]
  split_ifs <;> exact pruneBackups_subset fs.backups

/-- C8: when the shortcuts file is missing at the start of an
add-operation, the operation succeeds: the caller substitutes the empty
tree, no backup copy is made (the backup directory gains no file), and
the live file is created fresh holding exactly the new record under key
`"0"`. -/
theorem missing_live_file_creates_fresh (sessionId : String) (record : VDFNode)
    (iconPath : String) (now : Nat) (fs : FS) (hl : fs.live = none) :
    (add_game sessionId record iconPath WriteOutcome.ok now fs).1 = some true ∧
    ((add_game sessionId record iconPath WriteOutcome.ok now fs).2).backups ⊆ fs.backups ∧
    ((add_game sessionId record iconPath WriteOutcome.ok now fs).2).live =
      some (encodeFile [(new_shortcut_id [], record)]) ∧
    new_shortcut_id [] = strBytes "0" := by
  simp only [add_game, hl]
  refine ⟨rfl, ?_, rfl, by decide⟩
  rw [backup_and_save_backups]
  exact backupStep_subset_of_none sessionId fs hl

theorem missing_live_file_witness :
    (add_game "s" (VDFNode.str []) "" WriteOutcome.ok 1
      { live := none, liveMtime := 0, backups := [⟨"old", 0, [7]⟩],
        iconFiles := [] }).1 = some true ∧
    ((add_game "s" (VDFNode.str []) "" WriteOutcome.ok 1
      { live := none, liveMtime := 0, backups := [⟨"old", 0, [7]⟩],
        iconFiles := [] }).2).backups ⊆ [⟨"old", 0, [7]⟩] ∧
    ((add_game "s" (VDFNode.str []) "" WriteOutcome.ok 1
      { live := none, liveMtime := 0, backups := [⟨"old", 0, [7]⟩],
        iconFiles := [] }).2).live =
      some (encodeFile [(new_shortcut_id [], VDFNode.str [])]) ∧
    new_shortcut_id [] = strBytes "0" :=
  missing_live_file_creates_fresh "s" (VDFNode.str []) "" 1
    { live := none, liveMtime := 0, backups := [⟨"old", 0, [7]⟩], iconFiles := [] } rfl

/-- C9: a decode failure on loading the existing shortcuts file aborts
the whole add-operation: no record is inserted, no backup is made, and
the filesystem state (live file included) is returned unchanged. -/
theorem decode_failure_aborts (sessionId : String) (record : VDFNode)
    (iconPath : String) (outcome : WriteOutcome) (now : Nat) (fs : FS)
    (bytes : List Nat) (hl : fs.live = some bytes)
    (hdec : decodeFile bytes = none) :
    add_game sessionId record iconPath outcome now fs = (none, fs) := by
  simp [add_game, hl, hdec]

theorem decode_failure_aborts_witness :
    add_game "s" (VDFNode.str []) "" WriteOutcome.ok 1
      { live := some [9], liveMtime := 0, backups := [], iconFiles := [] } =
      (none, { live := some [9], liveMtime := 0, backups := [], iconFiles := [] }) :=
  decode_failure_aborts "s" (VDFNode.str []) "" WriteOutcome.ok 1
    { live := some [9], liveMtime := 0, backups := [], iconFiles := [] } [9]
    rfl rfl

/-- C10: when the write step fails and an icon file had been downloaded
for the new shortcut (`icon_path` nonempty and present on disk),
`backup_and_save` deletes that icon file before returning `False`. -/
theorem write_failure_deletes_icon (sessionId : String) (shortcuts : VDFFile)
    (iconPath : String) (outcome : WriteOutcome) (now : Nat) (fs : FS)
    (hicon : iconPath ≠ "") (hmem : iconPath ∈ fs.iconFiles)
    (hnd : fs.iconFiles.Nodup) (hfail : outcome ≠ WriteOutcome.ok) :
    (backup_and_save sessionId shortcuts iconPath outcome now fs).1 = false ∧
    iconPath ∉
      ((backup_and_save sessionId shortcuts iconPath outcome now fs).2).iconFiles := by
  have hrem : ∀ g : FS, g.iconFiles = fs.iconFiles →
      iconPath ∉ (removeIcon iconPath g).iconFiles := by
    intro g hg
    simp only [removeIcon, if_pos hicon, hg]
    rw [if_pos (by simpa [List.elem_iff] using hmem)]
    exact hnd.not_mem_erase
  cases outcome with
  | ok => exact absurd rfl hfail
  | failOpen => exact ⟨rfl, hrem _ rfl⟩
  | failWrite => exact ⟨rfl, hrem _ rfl⟩

theorem write_failure_deletes_icon_witness :
    (backup_and_save "s" [] "/grid/icon.ico" WriteOutcome.failWrite 1
      { live := some [1], liveMtime := 0, backups := [],
        iconFiles := ["/grid/icon.ico"] }).1 = false ∧
    "/grid/icon.ico" ∉
      ((backup_and_save "s" [] "/grid/icon.ico" WriteOutcome.failWrite 1
        { live := some [1], liveMtime := 0, backups := [],
          iconFiles := ["/grid/icon.ico"] }).2).iconFiles :=
  write_failure_deletes_icon "s" [] "/grid/icon.ico" WriteOutcome.failWrite 1
    { live := some [1], liveMtime := 0, backups := [],
      iconFiles := ["/grid/icon.ico"] }
    (by decide) (by decide) (by decide) (by decide)
